import Mathlib

/-!
Verification of the lightcode agent orchestration loop.

This file shallowly embeds the core of `src/lightcode` (the protocol
adapters `CompletionClient` and `ResponsesClient` from `repl.py`, the
tool-execution pipeline from `registry.py`, the interrupt coordinator from
`interrupt.py`, and the subagent orchestrator from `subagent.py` and
`tools/subagent.py`) and proves or refutes the frozen claims about it.

Conventions used throughout:
- Python dict-shaped chat messages become the `Msg` structure; an absent
  `tool_calls` key is modelled as the empty list (Python truthiness of a
  missing or empty list is falsy in the source conditions).
- Python exceptions become `Except` values; `InterruptRequested` is the
  distinguished interrupt condition.
- Machine-level JSON parsing is abstracted by the `ArgPayload` type: a
  payload is either well formed (and carries its decoded mapping) or
  malformed (and `json.loads` raises `JSONDecodeError` on it).  This is
  exactly the distinction the source code branches on.
-/

namespace Lightcode

/-- Content of a chat message: plain text, or the multimodal image shape
the adapters build from a media tool result (`data:<mime>;base64,<data>`). -/
inductive MsgContent
  | text (s : String)
  | imageUrl (url : String)
  deriving Repr, DecidableEq

/-- A role-tagged chat message as kept in `CompletionClient.messages`.
The `tool_calls` field holds the ids of the tool calls an assistant
message carries; `[]` models a missing or empty `tool_calls` key, and
`tool_call_id = ""` models a missing key on non-tool messages. -/
structure Msg where
  role : String
  content : MsgContent
  tool_call_id : String
  tool_calls : List String
  deriving Repr, DecidableEq

/-- Predicate from `CompletionClient.reset_context`: the popped messages
are exactly those with role `tool`. -/
def isToolMsg (m : Msg) : Bool := m.role == "tool"

/-- Embedding of `CompletionClient.reset_context` (repl.py lines 244-251).
The Python code pops trailing messages whose role is `tool` and then, if
the now-last message is an assistant message with a truthy `tool_calls`
entry, pops that one as well.  Popping from the end of a Python list is
modelled by working on the reversed Lean list. -/
def resetContextCompletion (messages : List Msg) : List Msg :=
  match messages.reverse.dropWhile isToolMsg with
  | [] => []
  | m :: rest =>
    if m.role == "assistant" && !m.tool_calls.isEmpty then rest.reverse
    else (m :: rest).reverse

/-- Whether the last message of a history is an assistant message carrying
tool calls, the condition under which `reset_context` removes it. -/
def lastIsAssistantWithToolCalls (l : List Msg) : Bool :=
  match l.getLast? with
  | some m => m.role == "assistant" && !m.tool_calls.isEmpty
  | none => false

/-- A decoded tool call as built by both adapters: correlation id, tool
name, and the decoded key-value argument mapping. -/
structure ToolCall where
  id : String
  name : String
  arguments : List (String × String)
  deriving Repr, DecidableEq

/-- Result of `parse_tool_result` (repl.py lines 35-54): either the
original string or the image dict with mime type and base64 payload. -/
inductive ParsedResult
  | plain (s : String)
  | image (mime : String) (base64 : String)
  deriving Repr, DecidableEq

/-- The literal prefix of the image sentinel regex. -/
def imageMarker : List Char := ['[', 'I', 'M', 'A', 'G', 'E', ':']

/-- Stage 1 of `IMAGE_PATTERN` matching: the anchored literal text. -/
def stripMarker (cs : List Char) : Option (List Char) :=
  if cs.take 7 = imageMarker then some (cs.drop 7) else none

/-- Stage 2 of `IMAGE_PATTERN` matching: the first group is the maximal
nonempty colon-free run, followed by the literal colon. -/
def splitMime (cs : List Char) : Option (List Char × List Char) :=
  match cs.dropWhile (fun c => !(c == ':')) with
  | ':' :: r =>
    if (cs.takeWhile (fun c => !(c == ':'))).isEmpty then none
    else some (cs.takeWhile (fun c => !(c == ':')), r)
  | _ => none

/-- Stage 3 of `IMAGE_PATTERN` matching: the closing bracket and the end
anchor.  Python `$` (without MULTILINE) matches at the end of the string
or just before a single newline at the end of the string, so the suffix
after the payload group is either a bare bracket or a bracket followed by
one final newline. -/
def stripClose (r : List Char) : Option (List Char) :=
  match r.reverse with
  | [] => none
  | c :: t =>
    if c = ']' then some t.reverse
    else if c = '\n' then
      match t with
      | [] => none
      | c2 :: t2 => if c2 = ']' then some t2.reverse else none
    else none

/-- Embedding of `IMAGE_PATTERN.match` for the pattern
`[IMAGE:([^:]+):(.+)]` anchored at both ends (repl.py line 32 and
subagent.py line 20): returns the two captured groups on a match.  The
payload group comes from `(.+)`, which is nonempty and cannot contain a
newline; the mime group comes from `([^:]+)`, which is nonempty and
cannot contain a colon. -/
def imagePatternMatch (cs : List Char) : Option (List Char × List Char) :=
  (stripMarker cs).bind (fun rest =>
    (splitMime rest).bind (fun mr =>
      (stripClose mr.2).bind (fun p =>
        if p = [] ∨ '\n' ∈ p then none else some (mr.1, p))))

/-- Embedding of `parse_tool_result` (repl.py lines 35-54). -/
def parseToolResult (s : String) : ParsedResult :=
  match imagePatternMatch s.data with
  | some (m, p) => ParsedResult.image (String.mk m) (String.mk p)
  | none => ParsedResult.plain s

/-- The chat-message content `CompletionClient.add_tool_result` builds for
a tool result (repl.py lines 210-232): the image dict becomes the
multimodal `image_url` entry, a plain string is kept as is. -/
def mkContent (r : ParsedResult) : MsgContent :=
  match r with
  | ParsedResult.plain s => MsgContent.text s
  | ParsedResult.image mime b64 => MsgContent.imageUrl ("data:" ++ mime ++ ";base64," ++ b64)

/-- Embedding of `CompletionClient.add_tool_result` (repl.py lines
210-233): appends one tool message carrying the tool call id. -/
def addToolResultCompletion (messages : List Msg) (id : String) (r : ParsedResult) : List Msg :=
  messages ++ [Msg.mk "tool" (mkContent r) id []]

/-- The tool message `add_tool_result` appends for a given call when the
pipeline result of that call is produced by `ex`. -/
def toolMsgFor (ex : ToolCall → String) (c : ToolCall) : Msg :=
  Msg.mk "tool" (mkContent (parseToolResult (ex c))) c.id []

/-- Embedding of the tool-dispatch segment of `run_repl_loop` (repl.py
lines 657-691) on the non-interrupted path: each tool call of the result
is executed in order through the pipeline (abstracted as the total
function `ex`) and its parsed result fed to `add_tool_result` before the
next model call is issued. -/
def dispatchToolCalls (ex : ToolCall → String) (msgs : List Msg) : List ToolCall → List Msg
  | [] => msgs
  | c :: rest => dispatchToolCalls ex (addToolResultCompletion msgs c.id (parseToolResult (ex c))) rest

/-- Answer shape queued by `ResponsesClient.add_tool_result` (repl.py
lines 386-407): plain text, or the `input_image` entry. -/
inductive ToolAnswer
  | text (s : String)
  | inputImage (url : String)
  deriving Repr, DecidableEq

/-- One entry of `ResponsesClient.pending_tool_outputs`: a
`function_call_output` record correlating the call id to the answer. -/
structure PendingOutput where
  call_id : String
  output : ToolAnswer
  deriving Repr, DecidableEq

/-- State of the stateful-chain adapter `ResponsesClient` (repl.py lines
254-426): continuation token, queued tool outputs and token counters. -/
structure ResponsesState where
  previous_response_id : Option String
  pending_tool_outputs : List PendingOutput
  total_input_tokens : Nat
  total_output_tokens : Nat
  deriving Repr, DecidableEq

/-- Embedding of `ResponsesClient.add_tool_result` (repl.py lines
386-407): enqueues into the pending-output queue. -/
def addToolResultResponses (s : ResponsesState) (id : String) (r : ParsedResult) : ResponsesState :=
  { s with pending_tool_outputs := s.pending_tool_outputs ++
      [PendingOutput.mk id
        (match r with
         | ParsedResult.plain t => ToolAnswer.text t
         | ParsedResult.image mime b64 => ToolAnswer.inputImage ("data:" ++ mime ++ ";base64," ++ b64))] }

/-- Embedding of `ResponsesClient.reset_context` (repl.py lines 418-426):
clears the pending queue, the continuation token and the token counters. -/
def resetContextResponses (_s : ResponsesState) : ResponsesState :=
  ResponsesState.mk none [] 0 0

-- ---------------------------------------------------------------------------
-- Helper lemmas on lists
-- ---------------------------------------------------------------------------

theorem dropWhile_append_all {α : Type} (p : α → Bool) (a b : List α)
    (h : ∀ x ∈ a, p x = true) : (a ++ b).dropWhile p = b.dropWhile p := by
  induction a with
  | nil => rfl
  | cons x xs ih =>
    have hx : p x = true := h x (List.mem_cons_self x xs)
    simp only [List.cons_append, List.dropWhile_cons, hx, if_true]
    exact ih (fun y hy => h y (List.mem_cons_of_mem x hy))

theorem dropWhile_eq_self_of_head {α : Type} (p : α → Bool) (l : List α)
    (h : ∀ x ∈ l.head?, p x = false) : l.dropWhile p = l := by
  cases l with
  | nil => rfl
  | cons x xs =>
    have hx : p x = false := h x rfl
    simp [List.dropWhile_cons, hx]

-- ---------------------------------------------------------------------------
-- C5: resetContext on the stateful-chain adapter
-- ---------------------------------------------------------------------------

/-- C5: for every state of the stateful-chain adapter `ResponsesClient`,
including any state holding a non-null continuation token and a non-empty
pending tool-output queue, `reset_context` leaves the continuation token
null and the pending-output queue empty. -/
theorem claim_C5_responses_reset_clears (s : ResponsesState) :
    (resetContextResponses s).previous_response_id = none ∧
    (resetContextResponses s).pending_tool_outputs = [] :=
  ⟨rfl, rfl⟩

-- ---------------------------------------------------------------------------
-- C6: resetContext on the stateless-history adapter
-- ---------------------------------------------------------------------------

/-- C6: for every message history held by the stateless-history adapter,
`reset_context` removes exactly the most recent contiguous run of
tool-result messages and, if the message immediately before them is an
assistant message carrying tool calls, that assistant message as well;
all earlier messages are unchanged. -/
theorem claim_C6_completion_reset_restores (pre run : List Msg)
    (hrun : ∀ m ∈ run, m.role = "tool")
    (hpre : ∀ m ∈ pre.getLast?, m.role ≠ "tool") :
    resetContextCompletion (pre ++ run) =
      if lastIsAssistantWithToolCalls pre then pre.dropLast else pre := by
  unfold resetContextCompletion
  have h1 : (pre ++ run).reverse.dropWhile isToolMsg = pre.reverse := by
    rw [List.reverse_append]
    rw [dropWhile_append_all isToolMsg run.reverse pre.reverse
      (fun x hx => by
        have : x ∈ run := List.mem_reverse.mp hx
        simp [isToolMsg, hrun x this])]
    apply dropWhile_eq_self_of_head
    intro x hx
    have hx' : pre.getLast? = some x := by
      rw [← List.head?_reverse]
      exact hx
    have := hpre x (by rw [hx']; rfl)
    simp [isToolMsg, this]
  rw [h1]
  cases hrev : pre.reverse with
  | nil =>
    have : pre = [] := by
      have := congrArg List.reverse hrev
      simpa using this
    subst this
    simp [lastIsAssistantWithToolCalls]
  | cons m rest =>
    have hpre_eq : pre = rest.reverse ++ [m] := by
      have := congrArg List.reverse hrev
      simpa using this
    have hlast : pre.getLast? = some m := by
      rw [hpre_eq]; exact List.getLast?_concat _
    have hdrop : pre.dropLast = rest.reverse := by
      rw [hpre_eq]; exact List.dropLast_concat
    have hcond : lastIsAssistantWithToolCalls pre =
        (m.role == "assistant" && !m.tool_calls.isEmpty) := by
      unfold lastIsAssistantWithToolCalls
      rw [hlast]
    by_cases hm : (m.role == "assistant" && !m.tool_calls.isEmpty) = true
    · simp only [hm, if_true, hcond, hdrop]
    · have hm' : (m.role == "assistant" && !m.tool_calls.isEmpty) = false := by
        revert hm; cases m.role == "assistant" && !m.tool_calls.isEmpty <;> simp
      simp only [hm', if_false, Bool.false_eq_true, hcond]
      rw [← hrev]
      simp

/-- Witness for C6 at a concrete history: a system message, a user
message, an assistant message requesting tool calls, and two trailing
tool results; reset restores the first two messages. -/
theorem claim_C6_witness :
    resetContextCompletion
      [Msg.mk "system" (MsgContent.text "sys") "" [],
       Msg.mk "user" (MsgContent.text "hi") "" [],
       Msg.mk "assistant" (MsgContent.text "calling") "" ["a", "b"],
       Msg.mk "tool" (MsgContent.text "r1") "a" [],
       Msg.mk "tool" (MsgContent.text "r2") "b" []] =
      [Msg.mk "system" (MsgContent.text "sys") "" [],
       Msg.mk "user" (MsgContent.text "hi") "" []] := by
  have h := claim_C6_completion_reset_restores
    [Msg.mk "system" (MsgContent.text "sys") "" [],
     Msg.mk "user" (MsgContent.text "hi") "" [],
     Msg.mk "assistant" (MsgContent.text "calling") "" ["a", "b"]]
    [Msg.mk "tool" (MsgContent.text "r1") "a" [],
     Msg.mk "tool" (MsgContent.text "r2") "b" []]
    (by intro m hm; fin_cases hm <;> rfl)
    (by intro m hm; simp at hm; subst hm; decide)
  simpa using h

-- ---------------------------------------------------------------------------
-- C4: tool results are fed back in emission order
-- ---------------------------------------------------------------------------

/-- C4: for every result whose tool-call list is non-empty, the agent
loop executes the calls and feeds their results to `add_tool_result`
strictly in the order the model emitted them: the messages appended to
the stateless-history adapter are exactly the tool messages for the
calls, in order, and their `tool_call_id` fields are the call ids in
order. -/
theorem claim_C4_tool_results_in_order (ex : ToolCall → String) (msgs : List Msg)
    (calls : List ToolCall) (_h : calls ≠ []) :
    dispatchToolCalls ex msgs calls = msgs ++ calls.map (toolMsgFor ex) ∧
    (calls.map (toolMsgFor ex)).map Msg.tool_call_id = calls.map ToolCall.id := by
  have key : ∀ (cs : List ToolCall) (ms : List Msg),
      dispatchToolCalls ex ms cs = ms ++ cs.map (toolMsgFor ex) := by
    intro cs
    induction cs with
    | nil => intro ms; simp [dispatchToolCalls]
    | cons c rest ih =>
      intro ms
      simp only [dispatchToolCalls, List.map_cons]
      rw [ih]
      simp [addToolResultCompletion, toolMsgFor]
  refine ⟨key calls msgs, ?_⟩
  rw [List.map_map]
  rfl

/-- Witness for C4: feeding the stateless-history adapter a result with
two tool calls with ids `a` then `b` appends two tool messages whose
`tool_call_id` fields are `a` then `b`, in that order. -/
theorem claim_C4_witness :
    dispatchToolCalls (fun _ => "ok") []
        [ToolCall.mk "a" "echo" [], ToolCall.mk "b" "echo" []] =
      [Msg.mk "tool" (MsgContent.text "ok") "a" [],
       Msg.mk "tool" (MsgContent.text "ok") "b" []] ∧
    ([ToolCall.mk "a" "echo" [], ToolCall.mk "b" "echo" []].map
        (toolMsgFor (fun _ => "ok"))).map Msg.tool_call_id = ["a", "b"] := by
  have h := claim_C4_tool_results_in_order (fun _ => "ok") []
    [ToolCall.mk "a" "echo" [], ToolCall.mk "b" "echo" []] (by decide)
  exact ⟨by rw [h.1]; rfl, h.2⟩

-- ---------------------------------------------------------------------------
-- C9: classification of the image sentinel
-- ---------------------------------------------------------------------------

theorem stripMarker_eq_some (cs rest : List Char) :
    stripMarker cs = some rest ↔ cs = imageMarker ++ rest := by
  constructor
  · intro h
    unfold stripMarker at h
    split at h
    · rename_i ht
      have hr : rest = cs.drop 7 := (Option.some.inj h).symm
      conv_lhs => rw [← List.take_append_drop 7 cs]
      rw [ht, hr]
    · exact absurd h (by simp)
  · intro h
    subst h
    unfold stripMarker
    rw [List.take_left' (show imageMarker.length = 7 from rfl),
      List.drop_left' (show imageMarker.length = 7 from rfl)]
    simp

theorem colon_split (m r : List Char) (hm : ':' ∉ m) :
    (m ++ ':' :: r).takeWhile (fun c => !(c == ':')) = m ∧
    (m ++ ':' :: r).dropWhile (fun c => !(c == ':')) = ':' :: r := by
  induction m with
  | nil => constructor <;> simp [List.takeWhile_cons, List.dropWhile_cons]
  | cons c cs ih =>
    have hc : ¬ c = ':' := by
      intro h
      subst h
      exact hm (List.mem_cons_self _ _)
    have ih' := ih (fun h => hm (List.mem_cons_of_mem _ h))
    constructor
    · simp only [List.cons_append, List.takeWhile_cons]
      simp [hc, ih'.1]
    · simp only [List.cons_append, List.dropWhile_cons]
      simp [hc, ih'.2]

theorem splitMime_eq_some (cs m r : List Char) :
    splitMime cs = some (m, r) ↔ (m ≠ [] ∧ ':' ∉ m ∧ cs = m ++ ':' :: r) := by
  constructor
  · intro h
    unfold splitMime at h
    split at h
    · rename_i r' heq
      split at h
      · exact absurd h (by simp)
      · rename_i hne
        have hmr : cs.takeWhile (fun c => !(c == ':')) = m ∧ r' = r := by
          have := Option.some.inj h
          exact ⟨congrArg Prod.fst this, congrArg Prod.snd this⟩
        refine ⟨?_, ?_, ?_⟩
        · rw [← hmr.1]
          intro hnil
          exact hne (by simp [List.isEmpty_iff, hnil])
        · intro hmem
          rw [← hmr.1] at hmem
          have := List.mem_takeWhile_imp hmem
          simp at this
        · rw [← hmr.1, ← hmr.2, ← heq]
          exact (List.takeWhile_append_dropWhile _ _).symm
    · exact absurd h (by simp)
  · rintro ⟨hne, hno, hcs⟩
    subst hcs
    unfold splitMime
    rw [(colon_split m r hno).2]
    simp only [(colon_split m r hno).1]
    simp [List.isEmpty_iff, hne]

theorem stripClose_eq_some (r p : List Char) :
    stripClose r = some p ↔ (r = p ++ [']'] ∨ r = p ++ [']', '\n']) := by
  constructor
  · intro h
    unfold stripClose at h
    split at h
    · exact absurd h (by simp)
    · rename_i c t heq
      have hr : r = (c :: t).reverse := by
        rw [← heq]; simp
      split at h
      · rename_i hc
        subst hc
        left
        rw [hr, ← Option.some.inj h]
        simp
      · split at h
        · rename_i hc hnl
          subst hnl
          split at h
          · exact absurd h (by simp)
          · rename_i c2 t2
            split at h
            · rename_i hc2
              subst hc2
              right
              rw [hr, ← Option.some.inj h]
              simp
            · exact absurd h (by simp)
        · exact absurd h (by simp)
  · intro h
    rcases h with h | h <;> subst h <;> unfold stripClose
    · rw [show (p ++ [']']).reverse = ']' :: p.reverse by simp]
      simp
    · rw [show (p ++ [']', '\n']).reverse = '\n' :: ']' :: p.reverse by simp]
      simp

theorem imagePatternMatch_eq_some (cs m p : List Char) :
    imagePatternMatch cs = some (m, p) ↔
      (m ≠ [] ∧ ':' ∉ m ∧ p ≠ [] ∧ '\n' ∉ p ∧
       (cs = imageMarker ++ (m ++ ':' :: (p ++ [']'])) ∨
        cs = imageMarker ++ (m ++ ':' :: (p ++ [']', '\n'])))) := by
  constructor
  · intro h
    unfold imagePatternMatch at h
    rw [Option.bind_eq_some] at h
    obtain ⟨rest, h1, h⟩ := h
    rw [Option.bind_eq_some] at h
    obtain ⟨mr, h2, h⟩ := h
    rw [Option.bind_eq_some] at h
    obtain ⟨p', h3, h⟩ := h
    split at h
    · exact absurd h (by simp)
    · rename_i hcond
      have hmp : mr.1 = m ∧ p' = p := by
        have := Option.some.inj h
        exact ⟨congrArg Prod.fst this, congrArg Prod.snd this⟩
      obtain ⟨hm', hp'⟩ := hmp
      push_neg at hcond
      obtain ⟨hne, hno, hrest⟩ := (splitMime_eq_some rest mr.1 mr.2).mp (by rw [h2])
      have hclose := (stripClose_eq_some mr.2 p').mp h3
      rw [hm'] at hne hno
      rw [hp'] at hcond hclose
      refine ⟨hne, hno, hcond.1, hcond.2, ?_⟩
      rw [(stripMarker_eq_some cs rest).mp h1, hrest, hm']
      rcases hclose with hc | hc <;> rw [hc]
      · left; rfl
      · right; rfl
  · rintro ⟨hne, hno, hpne, hpno, hcs | hcs⟩ <;> subst hcs <;> unfold imagePatternMatch
    · rw [(stripMarker_eq_some _ _).mpr rfl]
      simp only [Option.some_bind]
      rw [(splitMime_eq_some _ m (p ++ [']'])).mpr ⟨hne, hno, rfl⟩]
      simp only [Option.some_bind]
      rw [(stripClose_eq_some _ p).mpr (Or.inl rfl)]
      simp [hpne, hpno]
    · rw [(stripMarker_eq_some _ _).mpr rfl]
      simp only [Option.some_bind]
      rw [(splitMime_eq_some _ m (p ++ [']', '\n'])).mpr ⟨hne, hno, rfl⟩]
      simp only [Option.some_bind]
      rw [(stripClose_eq_some _ p).mpr (Or.inr rfl)]
      simp [hpne, hpno]


theorem sentinel_data (m p : String) :
    ("[IMAGE:" ++ m ++ ":" ++ p ++ "]").data =
      imageMarker ++ (m.data ++ ':' :: (p.data ++ [']'])) := by
  simp [String.data_append, imageMarker]

theorem sentinel_data_nl (m p : String) :
    ("[IMAGE:" ++ m ++ ":" ++ p ++ "]" ++ "\n").data =
      imageMarker ++ (m.data ++ ':' :: (p.data ++ [']', '\n'])) := by
  simp [String.data_append, imageMarker]

/-- String-level characterization of the media classification performed
by `parse_tool_result`: the exact set of strings the compiled
`IMAGE_PATTERN` accepts, with the captured groups. -/
theorem parseToolResult_image_iff (s m p : String) :
    parseToolResult s = ParsedResult.image m p ↔
      (m ≠ "" ∧ ':' ∉ m.data ∧ p ≠ "" ∧ '\n' ∉ p.data ∧
       (s = "[IMAGE:" ++ m ++ ":" ++ p ++ "]" ∨
        s = "[IMAGE:" ++ m ++ ":" ++ p ++ "]" ++ "\n")) := by
  constructor
  · intro h
    unfold parseToolResult at h
    cases hm : imagePatternMatch s.data with
    | none => rw [hm] at h; exact absurd h (by simp)
    | some mp =>
      obtain ⟨a, b⟩ := mp
      rw [hm] at h
      simp only [ParsedResult.image.injEq] at h
      have ha : a = m.data := by rw [← h.1]
      have hb : b = p.data := by rw [← h.2]
      rw [ha, hb] at hm
      obtain ⟨hne, hno, hpne, hpno, hcs⟩ := (imagePatternMatch_eq_some s.data m.data p.data).mp hm
      refine ⟨?_, hno, ?_, hpno, ?_⟩
      · intro hcontra; apply hne; rw [hcontra]
      · intro hcontra; apply hpne; rw [hcontra]
      · rcases hcs with hc | hc
        · left
          apply String.ext
          rw [hc, sentinel_data]
        · right
          apply String.ext
          rw [hc, sentinel_data_nl]
  · rintro ⟨hne, hno, hpne, hpno, hs | hs⟩ <;> subst hs <;> unfold parseToolResult
    · rw [sentinel_data,
        (imagePatternMatch_eq_some _ m.data p.data).mpr
          ⟨fun hc => hne (String.ext hc), hno,
           fun hc => hpne (String.ext hc), hpno, Or.inl rfl⟩]
    · rw [sentinel_data_nl,
        (imagePatternMatch_eq_some _ m.data p.data).mpr
          ⟨fun hc => hne (String.ext hc), hno,
           fun hc => hpne (String.ext hc), hpno, Or.inr rfl⟩]

/-- The classification rule exactly as the claim words it: the
single-line sentinel form with both enclosing brackets, nothing else. -/
def claimSentinelForm (s : String) : Prop :=
  (∃ mime payload : String,
    s = "[IMAGE:" ++ mime ++ ":" ++ payload ++ "]" ∧ mime ≠ "" ∧ payload ≠ "") ∧
  ∀ c ∈ s.data, c ≠ '\n'

/-- C9 counterexample: the string consisting of the sentinel followed by
one trailing newline is classified as media by `parse_tool_result`
(Python regex `$` matches just before a final newline), although it is
not of the single-line bracket-enclosed sentinel form the claim
describes, so the claimed exact characterization fails. -/
theorem claim_C9_counterexample :
    parseToolResult "[IMAGE:image/png:AAAA]\n" = ParsedResult.image "image/png" "AAAA" ∧
    ¬ claimSentinelForm "[IMAGE:image/png:AAAA]\n" := by
  constructor
  · decide
  · intro h
    exact h.2 '\n' (by decide) rfl

/-- C9 amended: a tool-result string is classified as binary media
exactly when it is of the form with both enclosing brackets
`[IMAGE:<mime>:<payload>]`, where the mime group is nonempty and
colon-free and the payload group is nonempty and newline-free,
optionally followed by a single trailing newline; in particular
`[IMAGE:image/png:AAAA]` is classified as media with mime `image/png`
and payload `AAAA`, and the same text with the prefix or suffix bracket
missing is treated as plain text. -/
theorem claim_C9_amended_classification :
    (∀ (s m p : String),
      parseToolResult s = ParsedResult.image m p ↔
        (m ≠ "" ∧ ':' ∉ m.data ∧ p ≠ "" ∧ '\n' ∉ p.data ∧
         (s = "[IMAGE:" ++ m ++ ":" ++ p ++ "]" ∨
          s = "[IMAGE:" ++ m ++ ":" ++ p ++ "]" ++ "\n"))) ∧
    parseToolResult "[IMAGE:image/png:AAAA]" = ParsedResult.image "image/png" "AAAA" ∧
    parseToolResult "IMAGE:image/png:AAAA]" = ParsedResult.plain "IMAGE:image/png:AAAA]" ∧
    parseToolResult "[IMAGE:image/png:AAAA" = ParsedResult.plain "[IMAGE:image/png:AAAA" := by
  refine ⟨parseToolResult_image_iff, ?_, ?_, ?_⟩ <;> decide

-- ---------------------------------------------------------------------------
-- C2: decoding of malformed tool-call arguments
-- ---------------------------------------------------------------------------

/-- A serialized tool-call argument payload as seen by `json.loads`:
either well formed, carrying the decoded key-value mapping, or malformed,
on which `json.loads` raises `JSONDecodeError`. -/
inductive ArgPayload
  | wellFormed (args : List (String × String))
  | malformed (raw : String)
  deriving Repr, DecidableEq

/-- Embedding of `json.loads` on an argument payload: the decoded mapping
or the raised `JSONDecodeError`. -/
def jsonLoads : ArgPayload → Except String (List (String × String))
  | ArgPayload.wellFormed args => Except.ok args
  | ArgPayload.malformed _ => Except.error "JSONDecodeError"

/-- A raw tool call as delivered by the model: correlation id, function
name and the serialized argument payload. -/
structure RawToolCall where
  id : String
  name : String
  arguments : ArgPayload
  deriving Repr, DecidableEq

/-- Embedding of the argument decoding used by `ResponsesClient.call`
(repl.py lines 367-370) and by both subagent loops (subagent.py lines
256-259 and 351-354): `json.loads` wrapped in a handler that turns a
`JSONDecodeError` into the empty mapping. -/
def decodeArgsOrEmpty (p : ArgPayload) : List (String × String) :=
  match jsonLoads p with
  | Except.ok args => args
  | Except.error _ => []

/-- Embedding of the tool-call extraction loop of `CompletionClient.call`
(repl.py lines 200-206): `json.loads` is called with no handler there, so
the first malformed payload raises out of `call`. -/
def completionExtractToolCalls : List RawToolCall → Except String (List ToolCall)
  | [] => Except.ok []
  | tc :: rest => do
    let args ← jsonLoads tc.arguments
    let tail ← completionExtractToolCalls rest
    Except.ok (ToolCall.mk tc.id tc.name args :: tail)

/-- Embedding of the tool-call extraction of `ResponsesClient.call`
(repl.py lines 362-376) over the function-call items of the response. -/
def responsesExtractToolCalls (raw : List RawToolCall) : List ToolCall :=
  raw.map (fun tc => ToolCall.mk tc.id tc.name (decodeArgsOrEmpty tc.arguments))

/-- C2 counterexample: for a tool call whose serialized arguments are not
valid JSON, the stateless-history `CompletionClient` raises the decode
error out of `call` (failing the turn) instead of returning a `ToolCall`
with an empty mapping, while the stateful-chain `ResponsesClient` does
return the `ToolCall` with the empty mapping; the claim asserts the
empty-mapping behaviour for both variants and is therefore false at this
input. -/
theorem claim_C2_counterexample :
    completionExtractToolCalls [RawToolCall.mk "call1" "echo" (ArgPayload.malformed "not json")] =
      Except.error "JSONDecodeError" ∧
    responsesExtractToolCalls [RawToolCall.mk "call1" "echo" (ArgPayload.malformed "not json")] =
      [ToolCall.mk "call1" "echo" []] := by
  constructor <;> rfl

/-- C2 amended: for every model result carrying a tool call whose
serialized argument payload is not valid JSON, the stateful-chain
`ResponsesClient` decodes the arguments to an empty mapping and returns a
`ToolCall` record for it, while the stateless-history `CompletionClient`
propagates the JSON decode error out of `call`, failing the turn (the
error is recovered at the outer loop boundary by a context reset). -/
theorem claim_C2_amended_decoding (id name raw : String) (rest : List RawToolCall) :
    responsesExtractToolCalls (RawToolCall.mk id name (ArgPayload.malformed raw) :: rest) =
      ToolCall.mk id name [] :: responsesExtractToolCalls rest ∧
    completionExtractToolCalls (RawToolCall.mk id name (ArgPayload.malformed raw) :: rest) =
      Except.error "JSONDecodeError" := by
  constructor <;> rfl

-- ---------------------------------------------------------------------------
-- C7: interrupt checks in the tool-execution pipeline
-- ---------------------------------------------------------------------------

/-- The interrupt condition raised by the pipeline, the Lean counterpart
of the `InterruptRequested` exception. -/
inductive Interrupted
  | interruptRequested
  deriving Repr, DecidableEq

/-- Outcome of the permission prompt of `execute_tool` (registry.py lines
103-112): allow, deny, or cancel (the user pressing Esc, mapped to an
interrupt). -/
inductive Permission
  | allow
  | deny
  | cancel
  deriving Repr, DecidableEq

/-- What the tool body itself does when invoked by `registry.execute`
(registry.py lines 129-137): finish with a string, raise an ordinary
exception (caught and converted to error text), or raise the interrupt
condition (re-raised). -/
inductive ToolBodyOutcome
  | finished (s : String)
  | raisedError (kind : String) (msg : String)
  | raisedInterrupt
  deriving Repr, DecidableEq

/-- The per-call runtime environment of one `execute_tool` invocation:
the value of the interrupt flag at each of the two checkpoints
(registry.py lines 100 and 126), the permission decision, and the tool
body behaviour.  The flag is set by a background thread and never cleared
during a batch, which is why the two reads are separate observations. -/
structure ToolCallCtx where
  flagBeforePermission : Bool
  permission : Permission
  flagBeforeExecution : Bool
  body : ToolBodyOutcome
  deriving Repr, DecidableEq

/-- Result of one `execute_tool` run, instrumented with whether the tool
body was actually invoked. -/
structure ToolExecOutcome where
  invoked : Bool
  outcome : Except Interrupted String

/-- Embedding of `execute_tool` (registry.py lines 70-142): check the
interrupt flag, prompt for permission unless skipped, check the flag
again, then invoke the tool with exceptions converted to error text. -/
def executeToolModel (skipPermission : Bool) (ctx : ToolCallCtx) : ToolExecOutcome :=
  if ctx.flagBeforePermission then
    ToolExecOutcome.mk false (Except.error Interrupted.interruptRequested)
  else if skipPermission = false ∧ ctx.permission = Permission.cancel then
    ToolExecOutcome.mk false (Except.error Interrupted.interruptRequested)
  else if skipPermission = false ∧ ctx.permission = Permission.deny then
    ToolExecOutcome.mk false (Except.ok "Error: Tool execution was denied by user.")
  else if ctx.flagBeforeExecution then
    ToolExecOutcome.mk false (Except.error Interrupted.interruptRequested)
  else
    match ctx.body with
    | ToolBodyOutcome.finished s => ToolExecOutcome.mk true (Except.ok s)
    | ToolBodyOutcome.raisedError kind msg =>
      ToolExecOutcome.mk true (Except.ok ("Error: " ++ kind ++ ": " ++ msg))
    | ToolBodyOutcome.raisedInterrupt =>
      ToolExecOutcome.mk true (Except.error Interrupted.interruptRequested)

/-- Outcome of dispatching a whole tool-call batch. -/
structure BatchResult where
  messages : List Msg
  invokedIds : List String
  interrupted : Bool
  deriving Repr, DecidableEq

/-- Embedding of the per-result tool loop of `run_repl_loop` (repl.py
lines 658-684) over the stateless-history adapter: each call goes through
`execute_tool`; on `InterruptRequested` the loop breaks and the whole
batch is marked interrupted; otherwise the result is parsed and fed to
`add_tool_result`.  `invokedIds` records, in order, the calls whose tool
body actually ran. -/
def runToolBatch (skip : Bool) (msgs : List Msg) : List (ToolCall × ToolCallCtx) → BatchResult
  | [] => BatchResult.mk msgs [] false
  | (c, ctx) :: rest =>
    let r := executeToolModel skip ctx
    match r.outcome with
    | Except.error _ => BatchResult.mk msgs (if r.invoked then [c.id] else []) true
    | Except.ok text =>
      let b := runToolBatch skip (addToolResultCompletion msgs c.id (parseToolResult text)) rest
      BatchResult.mk b.messages ((if r.invoked then [c.id] else []) ++ b.invokedIds) b.interrupted

/-- C7: for every pending tool call, if the interrupt flag is set before
the permission prompt, or (with permission granted or skipped) before
execution, the pipeline raises `Interrupted` without invoking the tool,
and the remaining calls of the same batch are not executed: the whole
pending batch fails with `Interrupted`, no tool body runs, and no tool
message is appended. -/
theorem claim_C7_interrupt_blocks_batch (skip : Bool) (msgs : List Msg)
    (c : ToolCall) (ctx : ToolCallCtx) (rest : List (ToolCall × ToolCallCtx))
    (h : ctx.flagBeforePermission = true ∨
         (ctx.flagBeforePermission = false ∧
          (skip = true ∨ ctx.permission = Permission.allow) ∧
          ctx.flagBeforeExecution = true)) :
    (executeToolModel skip ctx).invoked = false ∧
    (executeToolModel skip ctx).outcome = Except.error Interrupted.interruptRequested ∧
    runToolBatch skip msgs ((c, ctx) :: rest) = BatchResult.mk msgs [] true := by
  have hexec : executeToolModel skip ctx =
      ToolExecOutcome.mk false (Except.error Interrupted.interruptRequested) := by
    rcases h with h1 | ⟨h1, h2, h3⟩
    · simp [executeToolModel, h1]
    · rcases h2 with h2 | h2
      · subst h2
        simp [executeToolModel, h1, h3]
      · simp [executeToolModel, h1, h2, h3]
  refine ⟨by rw [hexec], by rw [hexec], ?_⟩
  simp [runToolBatch, hexec]

/-- Witness for C7 at a concrete batch: the flag is set before the
permission prompt of the first of two calls; neither tool body runs, no
message is appended, and the batch is interrupted. -/
theorem claim_C7_witness :
    (executeToolModel false
        (ToolCallCtx.mk true Permission.allow false (ToolBodyOutcome.finished "one"))).invoked
      = false ∧
    (executeToolModel false
        (ToolCallCtx.mk true Permission.allow false (ToolBodyOutcome.finished "one"))).outcome
      = Except.error Interrupted.interruptRequested ∧
    runToolBatch false []
        [(ToolCall.mk "a" "echo" [],
          ToolCallCtx.mk true Permission.allow false (ToolBodyOutcome.finished "one")),
         (ToolCall.mk "b" "echo" [],
          ToolCallCtx.mk false Permission.allow false (ToolBodyOutcome.finished "two"))] =
      BatchResult.mk [] [] true :=
  claim_C7_interrupt_blocks_batch false []
    (ToolCall.mk "a" "echo" [])
    (ToolCallCtx.mk true Permission.allow false (ToolBodyOutcome.finished "one"))
    [(ToolCall.mk "b" "echo" [],
      ToolCallCtx.mk false Permission.allow false (ToolBodyOutcome.finished "two"))]
    (Or.inl rfl)

-- ---------------------------------------------------------------------------
-- C10: completion wins over interruption in run_with_interrupt
-- ---------------------------------------------------------------------------

/-- Outcome of `run_with_interrupt` (interrupt.py lines 125-170): the
worker result propagated, the worker error re-raised, or the
`InterruptRequested` condition raised by the polling loop. -/
inductive RunOutcome (α : Type)
  | ok (a : α)
  | raised (e : String)
  | interruptedOut
  deriving Repr, DecidableEq

/-- What `run_with_interrupt` does once it observes the done event: the
worker result is returned, or the worker error re-raised (interrupt.py
lines 167-170). -/
def workerOutcome {α : Type} : Except String α → RunOutcome α
  | Except.ok a => RunOutcome.ok a
  | Except.error e => RunOutcome.raised e

/-- Embedding of the polling loop of `run_with_interrupt` (interrupt.py
lines 162-170).  Each loop iteration performs two reads: the done event
(the `while not done.is_set()` test) and then the interrupt flag; `polls`
is the sequence of observed pairs (done, interrupted).  If the done event
is observed, the loop exits and propagates the worker outcome even if the
flag is set; otherwise a set flag raises `InterruptRequested`; otherwise
the loop waits and polls again.  `none` models a run that is still
waiting after the recorded observations. -/
def runWithInterruptModel {α : Type} (worker : Except String α) :
    List (Bool × Bool) → Option (RunOutcome α)
  | [] => none
  | (d, i) :: rest =>
    if d then some (workerOutcome worker)
    else if i then some (RunOutcome.interruptedOut)
    else runWithInterruptModel worker rest

/-- C10: completion wins over interruption.  If the worker is observed
done at a polling iteration, the worker result is returned (or its error
re-raised) even if the interrupt flag is set at that iteration; and
`Interrupted` is raised only when the flag is observed set at an
iteration where the worker was still running (all earlier iterations saw
the worker running and the flag clear). -/
theorem claim_C10_completion_wins {α : Type} (worker : Except String α)
    (i : Bool) (rest polls : List (Bool × Bool))
    (h : runWithInterruptModel worker polls = some (RunOutcome.interruptedOut)) :
    runWithInterruptModel worker ((true, i) :: rest) = some (workerOutcome worker) ∧
    ∃ pre tail, polls = pre ++ (false, true) :: tail ∧ ∀ q ∈ pre, q = (false, false) := by
  refine ⟨by simp [runWithInterruptModel], ?_⟩
  clear rest
  revert h
  induction polls with
  | nil => intro h; simp [runWithInterruptModel] at h
  | cons q rest' ih =>
    intro h
    obtain ⟨d, j⟩ := q
    by_cases hd : d = true
    · subst hd
      simp only [runWithInterruptModel, if_true] at h
      have := Option.some.inj h
      cases worker <;> simp [workerOutcome] at this
    · have hd' : d = false := by revert hd; cases d <;> simp
      subst hd'
      by_cases hj : j = true
      · subst hj
        exact ⟨[], rest', rfl, by simp⟩
      · have hj' : j = false := by revert hj; cases j <;> simp
        subst hj'
        simp only [runWithInterruptModel, if_false, Bool.false_eq_true] at h
        obtain ⟨pre, tail, heq, hall⟩ := ih h
        refine ⟨(false, false) :: pre, tail, by rw [heq]; rfl, ?_⟩
        intro x hx
        rcases List.mem_cons.mp hx with hx | hx
        · exact hx
        · exact hall x hx

/-- Witness for C10: with the worker already finished at the first poll
and the flag simultaneously set, the result is returned; and a run that
raised `Interrupted` after one quiet poll decomposes as the theorem
states. -/
theorem claim_C10_witness :
    runWithInterruptModel (Except.ok (42 : Nat)) [((true : Bool), true)] =
      some (RunOutcome.ok 42) ∧
    ∃ pre tail, [((false : Bool), false), (false, true)] = pre ++ (false, true) :: tail ∧
      ∀ q ∈ pre, q = (false, false) := by
  have h := claim_C10_completion_wins (Except.ok (42 : Nat)) true []
    [((false : Bool), false), (false, true)] (by rfl)
  exact ⟨h.1, h.2⟩

-- ---------------------------------------------------------------------------
-- C3: the subagent-tool boundary
-- ---------------------------------------------------------------------------

/-- A Python exception as relevant to `SubAgentTool.execute`
(tools/subagent.py lines 105-174): the interrupt condition, a
`TypeError`, or any other exception kind with its message. -/
inductive PyExc
  | interruptRequested
  | typeError (msg : String)
  | otherExc (kind : String) (msg : String)
  deriving Repr, DecidableEq

/-- A Python value as resolvable by the name `type` inside
`SubAgentTool.execute`: in that scope the name is bound to the `str`
parameter `type` of `execute`, shadowing the builtin `type` function. -/
inductive PyValue
  | strValue (s : String)
  | builtinTypeFunction
  deriving Repr, DecidableEq

/-- The class name of an exception, what the builtin
`type(e).__name__` would produce. -/
def excKindName : PyExc → String
  | PyExc.interruptRequested => "InterruptRequested"
  | PyExc.typeError _ => "TypeError"
  | PyExc.otherExc kind _ => kind

/-- The message of an exception, what `str(e)` produces. -/
def excMessage : PyExc → String
  | PyExc.interruptRequested => ""
  | PyExc.typeError msg => msg
  | PyExc.otherExc _ msg => msg

/-- Python call semantics for the expression `type(e)` followed by
`.__name__`: calling a `str` value raises
`TypeError: str object is not callable` (the Python message carries
quotes around str, elided here); calling the builtin `type` yields the
class, whose `__name__` is the exception kind. -/
def pyCallOn (v : PyValue) (e : PyExc) : Except PyExc String :=
  match v with
  | PyValue.strValue _ => Except.error (PyExc.typeError "str object is not callable")
  | PyValue.builtinTypeFunction => Except.ok (excKindName e)

/-- One subagent type configuration (config.py `SubagentConfig`):
description and allowed tool names. -/
structure SubagentConfig where
  description : String
  tools : List String
  deriving Repr, DecidableEq

/-- Lookup of the requested type in `self._subagent_configs`. -/
def lookupConfig (configs : List (String × SubagentConfig)) (ty : String) :
    Option SubagentConfig :=
  (configs.find? (fun cfg => cfg.1 == ty)).map (fun cfg => cfg.2)

/-- The tool list built for a subagent type (tools/subagent.py lines
136-143): the configured names, skipping the name `subagent` (recursion
guard) and any name not present among all available tools. -/
def buildSubagentTools (allTools : List String) (cfg : SubagentConfig) : List String :=
  cfg.tools.filter (fun n => !(n == "subagent") && allTools.contains n)

/-- Embedding of the except handler of `SubAgentTool.execute`
(tools/subagent.py lines 169-174).  `InterruptRequested` is re-raised;
for any other exception the handler builds the error string by
evaluating the f-string, whose expression `type(e)` resolves the name
`type` to the local `str` parameter (the subagent type argument) rather
than the builtin, so the evaluation itself raises a `TypeError` that
propagates out of `execute`. -/
def subagentExceptHandler (tyArg : String) (e : PyExc) : Except PyExc String :=
  if e = PyExc.interruptRequested then Except.error e
  else
    match pyCallOn (PyValue.strValue tyArg) e with
    | Except.ok kind =>
      Except.ok ("Error running subagent: " ++ kind ++ ": " ++ excMessage e)
    | Except.error e2 => Except.error e2

/-- Embedding of `SubAgentTool.execute` (tools/subagent.py lines
105-174).  `runOutcome` is what the `run_subagent(...)` call does:
return a string or raise.  In the source the call itself always raises a
`TypeError` because `execute` passes the keyword arguments `api_base`,
`api_key` and `max_input_tokens`, which `run_subagent` (subagent.py
lines 129-141) does not accept; `runOutcome` is kept general so the
behaviour is characterized for every exception. -/
def subAgentToolExecute (configs : List (String × SubagentConfig))
    (allTools : List String) (tyArg : String)
    (runOutcome : Except PyExc String) : Except PyExc String :=
  match lookupConfig configs tyArg with
  | none =>
    Except.ok ("Error: Unknown subagent type " ++ tyArg ++ ". Available types: " ++
      String.intercalate ", " (configs.map (fun cfg => cfg.1)))
  | some cfg =>
    if (buildSubagentTools allTools cfg).isEmpty then
      Except.ok ("Error: No valid tools configured for subagent type " ++ tyArg ++ ".")
    else
      match runOutcome with
      | Except.ok r => Except.ok r
      | Except.error e => subagentExceptHandler tyArg e

/-- C3: the claim states that for every invocation with a configured type
and every non-interrupt exception raised while running the nested
session, `SubAgentTool.execute` returns an error-text string instead of
letting an exception propagate.  In the code the except handler itself
raises: the parameter `type` shadows the builtin, so `type(e).__name__`
calls a `str` and the resulting `TypeError` propagates out of `execute`.
Evaluated at the failing input (a configured type, with `run_subagent`
raising the `TypeError` its mismatched keyword arguments always produce),
`execute` yields a propagated exception, not an `Except.ok` error text. -/
theorem claim_C3_subagent_error_propagates :
    subAgentToolExecute
        [("general", SubagentConfig.mk "General purpose subagent" ["read_file"])]
        ["read_file"] "general"
        (Except.error (PyExc.typeError
          "run_subagent got an unexpected keyword argument api_base")) =
      Except.error (PyExc.typeError "str object is not callable") ∧
    (∀ e : PyExc, e ≠ PyExc.interruptRequested →
      subAgentToolExecute
          [("general", SubagentConfig.mk "General purpose subagent" ["read_file"])]
          ["read_file"] "general" (Except.error e) =
        Except.error (PyExc.typeError "str object is not callable")) := by
  constructor
  · rfl
  · intro e he
    have hlook : lookupConfig
        [("general", SubagentConfig.mk "General purpose subagent" ["read_file"])] "general" =
        some (SubagentConfig.mk "General purpose subagent" ["read_file"]) := rfl
    simp only [subAgentToolExecute, hlook]
    rw [if_neg (by decide)]
    simp only [subagentExceptHandler, if_neg he]
    rfl

/-- Witness for C3 at a concrete non-interrupt exception: the propagated
`TypeError` is produced for an ordinary runtime error as well. -/
theorem claim_C3_witness :
    subAgentToolExecute
        [("general", SubagentConfig.mk "General purpose subagent" ["read_file"])]
        ["read_file"] "general"
        (Except.error (PyExc.otherExc "ValueError" "boom")) =
      Except.error (PyExc.typeError "str object is not callable") :=
  (claim_C3_subagent_error_propagates).2
    (PyExc.otherExc "ValueError" "boom") (by decide)

-- ---------------------------------------------------------------------------
-- C1: a late completion of an abandoned worker mutates reset state
-- ---------------------------------------------------------------------------

/-- Joint state of the main REPL thread and the abandoned worker thread
during one interrupted turn of the stateless-history adapter.
`workerPc` tracks `CompletionClient.call` running on the worker thread
spawned by `run_with_interrupt`: 0 before appending the user message
(repl.py lines 168-170), 1 while blocked in the remote call (line 181),
2 after the remote call returned, 3 after appending the assistant
message (line 192) and setting the done event.  `mainPc` tracks the main
thread: 0 polling inside `run_with_interrupt`, 1 after it raised
`InterruptRequested`, 2 after `run_repl_loop` called `reset_context`
(line 711). -/
structure ConcState where
  messages : List Msg
  interruptFlag : Bool
  workerPc : Nat
  mainPc : Nat
  postResetMutation : Bool
  deriving Repr, DecidableEq

/-- Atomic events of the two threads plus the external interrupt
request. -/
inductive Ev
  | setFlag
  | workerAppendUserMsg
  | workerRemoteReturns
  | workerAppendAssistantMsg
  | mainObservesInterrupt
  | mainResetContext
  deriving Repr, DecidableEq

/-- Small-step transition relation of the interrupted turn, as a partial
step function: `none` means the event is not enabled in that state.
Mutations performed while `mainPc = 2` (after `reset_context` has run)
set `postResetMutation`. -/
def stepEv (userIn : String) (lateAssistant : Msg) (s : ConcState) : Ev → Option ConcState
  | Ev.setFlag => some { s with interruptFlag := true }
  | Ev.workerAppendUserMsg =>
    if s.workerPc = 0 then
      some { s with
        messages := s.messages ++ [Msg.mk "user" (MsgContent.text userIn) "" []],
        workerPc := 1,
        postResetMutation := s.postResetMutation || decide (s.mainPc = 2) }
    else none
  | Ev.workerRemoteReturns =>
    if s.workerPc = 1 then some { s with workerPc := 2 } else none
  | Ev.workerAppendAssistantMsg =>
    if s.workerPc = 2 then
      some { s with
        messages := s.messages ++ [lateAssistant],
        workerPc := 3,
        postResetMutation := s.postResetMutation || decide (s.mainPc = 2) }
    else none
  | Ev.mainObservesInterrupt =>
    -- the polling loop of run_with_interrupt raises InterruptRequested
    -- when it reads the flag set while the done event is not yet set
    -- (the worker sets done only in its finally block, after the append)
    if s.mainPc = 0 ∧ s.interruptFlag = true ∧ s.workerPc ≠ 3 then
      some { s with mainPc := 1 }
    else none
  | Ev.mainResetContext =>
    if s.mainPc = 1 then
      some { s with messages := resetContextCompletion s.messages, mainPc := 2 }
    else none

/-- Runs a schedule of events from a state; fails if any event is not
enabled at its point in the schedule. -/
def runSchedule (userIn : String) (lateAssistant : Msg) :
    ConcState → List Ev → Option ConcState
  | s, [] => some s
  | s, e :: es =>
    match stepEv userIn lateAssistant s e with
    | some s2 => runSchedule userIn lateAssistant s2 es
    | none => none

/-- Initial state of a turn: the system message is in the history, the
flag is clear, both threads are at their entry points. -/
def initConcState (instr : String) : ConcState :=
  ConcState.mk [Msg.mk "system" (MsgContent.text instr) "" []] false 0 0 false

/-- The interleaving that refutes the claim: the worker appends the user
message and blocks in the remote call; the user interrupts; the main
thread raises `InterruptRequested` and resets the context; only then
does the abandoned remote call return, and the worker appends the
assistant message. -/
def lateCompletionSchedule : List Ev :=
  [Ev.workerAppendUserMsg, Ev.setFlag, Ev.mainObservesInterrupt,
   Ev.mainResetContext, Ev.workerRemoteReturns, Ev.workerAppendAssistantMsg]

/-- C1: the claim states that a late completion of the abandoned worker
never mutates the shared conversation state after `reset_context` has
run.  The schedule above is a valid execution of the embedded two-thread
system (every step is enabled, and `Interrupted` is surfaced to the
loop), yet the worker appends the assistant message to the adapter
message list after the reset: the final state records a post-reset
mutation and its history ends with the stale assistant message. -/
theorem claim_C1_abandoned_worker_mutates_after_reset :
    (runSchedule "hi" (Msg.mk "assistant" (MsgContent.text "late reply") "" [])
        (initConcState "sys") lateCompletionSchedule).map ConcState.postResetMutation =
      some true ∧
    (runSchedule "hi" (Msg.mk "assistant" (MsgContent.text "late reply") "" [])
        (initConcState "sys") lateCompletionSchedule).map ConcState.messages =
      some [Msg.mk "system" (MsgContent.text "sys") "" [],
            Msg.mk "user" (MsgContent.text "hi") "" [],
            Msg.mk "assistant" (MsgContent.text "late reply") "" []] := by
  constructor <;> decide

-- ---------------------------------------------------------------------------
-- C8: subagent sessions terminate at max_turns
-- ---------------------------------------------------------------------------

/-- One turn of model behaviour for the completion-API subagent loop: the
assistant content (the empty string models a falsy content, absent or
empty) and the requested tool calls. -/
structure SubTurn where
  content : String
  toolCalls : List RawToolCall

/-- Instrumented outcome of a subagent loop: the `last_content` variable
at the end, the number of model calls made, and the truthy contents
observed during the session, most recent first. -/
structure SubRunOut where
  lastContent : Option String
  callsMade : Nat
  textsRev : List String

/-- The assistant message appended by `_run_completion_subagent`
(subagent.py line 242). -/
def subagentAssistantMsg (t : SubTurn) : Msg :=
  Msg.mk "assistant" (MsgContent.text t.content) "" (t.toolCalls.map (fun tc => tc.id))

/-- Embedding of `_parse_tool_result_for_completion` (subagent.py lines
46-68), collapsed to the message-content shape. -/
def parseForCompletionSub (s : String) : MsgContent :=
  match imagePatternMatch s.data with
  | some (m, p) =>
    MsgContent.imageUrl ("data:" ++ String.mk m ++ ";base64," ++ String.mk p)
  | none => MsgContent.text s

/-- The tool messages appended for one turn of the completion subagent
loop (subagent.py lines 250-280): arguments decoded with the
empty-mapping fallback, the tool executed (exceptions already converted
to error text inside `ex`), the parsed result appended as a tool
message.  This models the `interrupt_handler = None` path. -/
def completionSubToolMsgs (ex : String → List (String × String) → String)
    (tcs : List RawToolCall) : List Msg :=
  tcs.map (fun tc =>
    Msg.mk "tool" (parseForCompletionSub (ex tc.name (decodeArgsOrEmpty tc.arguments))) tc.id [])

/-- Embedding of the turn loop of `_run_completion_subagent`
(subagent.py lines 198-287) with `interrupt_handler = None`, instrumented
with the call count and the observed truthy contents.  The fuel argument
is the number of remaining turns of `range(1, max_turns + 1)`. -/
def completionSubLoop (ex : String → List (String × String) → String)
    (oracle : List Msg → SubTurn) : List Msg → Option String → Nat → SubRunOut
  | _msgs, last, 0 => SubRunOut.mk last 0 []
  | msgs, last, n + 1 =>
    let t := oracle msgs
    let last1 := if t.content = "" then last else some t.content
    let here := if t.content = "" then ([] : List String) else [t.content]
    if t.toolCalls.isEmpty then SubRunOut.mk last1 1 here
    else
      let r := completionSubLoop ex oracle
        ((msgs ++ [subagentAssistantMsg t]) ++ completionSubToolMsgs ex t.toolCalls) last1 n
      SubRunOut.mk r.lastContent (r.callsMade + 1) (r.textsRev ++ here)

/-- The seeded private history of a completion subagent session
(subagent.py lines 209-212). -/
def completionSubInitMsgs (instr : String) : List Msg :=
  [Msg.mk "system" (MsgContent.text instr) "" [],
   Msg.mk "user" (MsgContent.text "Please complete the task described above.") "" []]

/-- Embedding of the return value of `_run_completion_subagent`
(subagent.py line 287): `last_content or` the fixed fallback string. -/
def runCompletionSubagentModel (ex : String → List (String × String) → String)
    (oracle : List Msg → SubTurn) (instr : String) (maxTurns : Nat) : String :=
  match (completionSubLoop ex oracle (completionSubInitMsgs instr) none maxTurns).lastContent with
  | some c => c
  | none => "Subagent completed without response."

/-- One output item of a Responses API call as consumed by
`_run_responses_subagent` (subagent.py lines 339-381). -/
inductive OutputItem
  | reasoning (summaries : List String)
  | functionCall (tc : RawToolCall)
  | message (texts : List String)

/-- One turn of model behaviour for the responses-API subagent loop. -/
structure RespTurn where
  responseId : String
  output : List OutputItem

/-- The input of a responses-API call: fresh user text or the queued
tool outputs of the previous turn. -/
inductive RInput
  | userText (s : String)
  | toolOutputs (outs : List PendingOutput)

/-- Embedding of `_parse_tool_result_for_responses` (subagent.py lines
23-43), collapsed to the answer shape. -/
def parseForResponsesSub (s : String) : ToolAnswer :=
  match imagePatternMatch s.data with
  | some (m, p) =>
    ToolAnswer.inputImage ("data:" ++ String.mk m ++ ";base64," ++ String.mk p)
  | none => ToolAnswer.text s

/-- Processing of the output items of one responses turn (subagent.py
lines 339-381) with `interrupt_handler = None`: function-call items are
executed in order and enqueue a `function_call_output`; message items
update `last_content` with each truthy text.  Returns the queued outputs
in order and the truthy texts observed, most recent first. -/
def processRespItems (ex : String → List (String × String) → String) :
    List OutputItem → List PendingOutput × List String
  | [] => ([], [])
  | it :: rest =>
    let r := processRespItems ex rest
    match it with
    | OutputItem.reasoning _ => r
    | OutputItem.functionCall tc =>
      (PendingOutput.mk tc.id
        (parseForResponsesSub (ex tc.name (decodeArgsOrEmpty tc.arguments))) :: r.1, r.2)
    | OutputItem.message texts => (r.1, r.2 ++ (texts.filter (fun t => !(t == ""))).reverse)

/-- Embedding of the turn loop of `_run_responses_subagent` (subagent.py
lines 290-392) with `interrupt_handler = None`, instrumented like the
completion variant. -/
def respSubLoop (ex : String → List (String × String) → String)
    (oracle : Option String → RInput → RespTurn) :
    Option String → RInput → Option String → Nat → SubRunOut
  | _prev, _inp, last, 0 => SubRunOut.mk last 0 []
  | prev, inp, last, n + 1 =>
    let t := oracle prev inp
    let pr := processRespItems ex t.output
    let last1 := match pr.2.head? with | some x => some x | none => last
    if pr.1.isEmpty then SubRunOut.mk last1 1 pr.2
    else
      let r := respSubLoop ex oracle (some t.responseId) (RInput.toolOutputs pr.1) last1 n
      SubRunOut.mk r.lastContent (r.callsMade + 1) (r.textsRev ++ pr.2)

/-- Embedding of the return value of `_run_responses_subagent`
(subagent.py line 392). -/
def runResponsesSubagentModel (ex : String → List (String × String) → String)
    (oracle : Option String → RInput → RespTurn) (maxTurns : Nat) : String :=
  match (respSubLoop ex oracle none
      (RInput.userText "Please complete the task described above.") none maxTurns).lastContent with
  | some c => c
  | none => "Subagent completed without response."

theorem completionSubLoop_inv (ex : String → List (String × String) → String)
    (oracle : List Msg → SubTurn) :
    ∀ (n : Nat) (msgs : List Msg) (last : Option String),
      (completionSubLoop ex oracle msgs last n).callsMade ≤ n ∧
      (completionSubLoop ex oracle msgs last n).lastContent =
        (match (completionSubLoop ex oracle msgs last n).textsRev.head? with
         | some t => some t
         | none => last) := by
  intro n
  induction n with
  | zero => intro msgs last; exact ⟨Nat.le_refl 0, rfl⟩
  | succ n ih =>
    intro msgs last
    simp only [completionSubLoop]
    by_cases hT : (oracle msgs).toolCalls.isEmpty
    · simp only [hT, if_true]
      by_cases hc : (oracle msgs).content = ""
      · simp [hc, Nat.le_succ_of_le]
      · simp [hc, Nat.le_succ_of_le]
    · simp only [hT, if_false, Bool.false_eq_true]
      obtain ⟨ihc, ihl⟩ := ih
        ((msgs ++ [subagentAssistantMsg (oracle msgs)]) ++
          completionSubToolMsgs ex (oracle msgs).toolCalls)
        (if (oracle msgs).content = "" then last else some (oracle msgs).content)
      refine ⟨Nat.succ_le_succ ihc, ?_⟩
      rw [ihl]
      cases hrt : (completionSubLoop ex oracle
          ((msgs ++ [subagentAssistantMsg (oracle msgs)]) ++
            completionSubToolMsgs ex (oracle msgs).toolCalls)
          (if (oracle msgs).content = "" then last else some (oracle msgs).content) n).textsRev with
      | cons x xs => simp [hrt]
      | nil =>
        simp only [hrt, List.nil_append, List.head?]
        by_cases hc : (oracle msgs).content = ""
        · simp [hc]
        · simp [hc]

theorem respSubLoop_inv (ex : String → List (String × String) → String)
    (oracle : Option String → RInput → RespTurn) :
    ∀ (n : Nat) (prev : Option String) (inp : RInput) (last : Option String),
      (respSubLoop ex oracle prev inp last n).callsMade ≤ n ∧
      (respSubLoop ex oracle prev inp last n).lastContent =
        (match (respSubLoop ex oracle prev inp last n).textsRev.head? with
         | some t => some t
         | none => last) := by
  intro n
  induction n with
  | zero => intro prev inp last; exact ⟨Nat.le_refl 0, rfl⟩
  | succ n ih =>
    intro prev inp last
    simp only [respSubLoop]
    by_cases hT : (processRespItems ex (oracle prev inp).output).1.isEmpty
    · simp only [hT, if_true]
      refine ⟨by simp [Nat.le_succ_of_le], ?_⟩
      cases (processRespItems ex (oracle prev inp).output).2 <;> simp
    · simp only [hT, if_false, Bool.false_eq_true]
      obtain ⟨ihc, ihl⟩ := ih (some (oracle prev inp).responseId)
        (RInput.toolOutputs (processRespItems ex (oracle prev inp).output).1)
        (match (processRespItems ex (oracle prev inp).output).2.head? with
         | some x => some x
         | none => last)
      refine ⟨Nat.succ_le_succ ihc, ?_⟩
      rw [ihl]
      cases hrt : (respSubLoop ex oracle (some (oracle prev inp).responseId)
          (RInput.toolOutputs (processRespItems ex (oracle prev inp).output).1)
          (match (processRespItems ex (oracle prev inp).output).2.head? with
           | some x => some x
           | none => last) n).textsRev with
      | cons x xs => simp [hrt]
      | nil =>
        simp only [hrt, List.nil_append, List.head?]

/-- C8: for every subagent session (either protocol variant), every tool
executor, every model behaviour (including one that requests tool calls
on every turn) and every `max_turns` bound, the session makes at most
`max_turns` model calls, and it returns the most recently observed
truthy textual content, or the fixed string
`Subagent completed without response.` if none was ever produced. -/
theorem claim_C8_subagent_bounded (ex : String → List (String × String) → String)
    (oracleC : List Msg → SubTurn) (oracleR : Option String → RInput → RespTurn)
    (instr : String) (maxTurns : Nat) :
    (completionSubLoop ex oracleC (completionSubInitMsgs instr) none maxTurns).callsMade ≤ maxTurns ∧
    runCompletionSubagentModel ex oracleC instr maxTurns =
      (match (completionSubLoop ex oracleC (completionSubInitMsgs instr) none
          maxTurns).textsRev.head? with
       | some t => t
       | none => "Subagent completed without response.") ∧
    (respSubLoop ex oracleR none
        (RInput.userText "Please complete the task described above.") none maxTurns).callsMade
      ≤ maxTurns ∧
    runResponsesSubagentModel ex oracleR maxTurns =
      (match (respSubLoop ex oracleR none
          (RInput.userText "Please complete the task described above.") none
          maxTurns).textsRev.head? with
       | some t => t
       | none => "Subagent completed without response.") := by
  obtain ⟨hc1, hc2⟩ := completionSubLoop_inv ex oracleC maxTurns (completionSubInitMsgs instr) none
  obtain ⟨hr1, hr2⟩ := respSubLoop_inv ex oracleR maxTurns none
    (RInput.userText "Please complete the task described above.") none
  refine ⟨hc1, ?_, hr1, ?_⟩
  · unfold runCompletionSubagentModel
    rw [hc2]
    cases (completionSubLoop ex oracleC (completionSubInitMsgs instr) none
        maxTurns).textsRev.head? <;> rfl
  · unfold runResponsesSubagentModel
    rw [hr2]
    cases (respSubLoop ex oracleR none
        (RInput.userText "Please complete the task described above.") none
        maxTurns).textsRev.head? <;> rfl

end Lightcode
